import Mathlib

/-!
Verification development for the `vents_ahu` protocol codec
(`src/vents_ahu/utils.py`, `src/vents_ahu/vents.py`, `src/vents_ahu/constant.py`).

Bytes are modelled as `List Nat` (each element intended `< 256`), Python ints
as `ℤ`/`ℕ`, Python floats as `ℚ` (exact-arithmetic model of the numeric
algebra; binary rounding of IEEE doubles is not modelled), and Python
exceptions as the `PyErr` type below.  Dynamic text interpolated into
exception messages (f-strings) is elided: each raise site keeps a fixed
message skeleton.
-/

namespace VentsAHU

/-- Python exception classes raised by the code under `src/`:
`VentsError` (the library's own class), plus the builtins it lets escape. -/
inductive PyErr where
  | ventsError (msg : String)
  | runtimeError (msg : String)
  | overflowError
  | unicodeEncodeError
  | indexError
  | typeError
  | valueError
  deriving DecidableEq, Repr

deriving instance DecidableEq for Except

/-- `u16_le(v)`: `(v & 0xFFFF).to_bytes(2, "little")`. -/
def u16_le (v : Nat) : List Nat :=
  [v % 65536 % 256, v % 65536 / 256]

/-- `sum16(data)`: `sum(data) & 0xFFFF`. -/
def sum16 (data : List Nat) : Nat :=
  data.sum % 65536

/-- `int.from_bytes(l, "little")` (unsigned). -/
def fromBytesLE : List Nat → Nat
  | [] => 0
  | b :: rest => b + 256 * fromBytesLE rest

inductive Endian where
  | big
  | little
  deriving DecidableEq, Repr

/-- `int.from_bytes(l, endian)` (unsigned). -/
def fromBytes (e : Endian) (l : List Nat) : Nat :=
  match e with
  | .little => fromBytesLE l
  | .big => fromBytesLE l.reverse

/-- Little-endian digits of `v`, exactly `cnt` bytes (low byte first). -/
def toBytesLE : Nat → Nat → List Nat
  | 0, _ => []
  | cnt + 1, v => v % 256 :: toBytesLE cnt (v / 256)

/-- `int(v).to_bytes(cnt, endian, signed=False)`: raises `OverflowError` when
`v` is negative or does not fit in `cnt` bytes. -/
def toBytes (cnt : Nat) (e : Endian) (v : ℤ) : Except PyErr (List Nat) :=
  if v < 0 ∨ (256 : ℤ) ^ cnt ≤ v then .error .overflowError
  else
    match e with
    | .little => .ok (toBytesLE cnt v.toNat)
    | .big => .ok (toBytesLE cnt v.toNat).reverse

/-- `validate(inner)`: recompute `sum16(inner[2:-2])` and compare with the
little-endian trailer `inner[-2:]`; raises `RuntimeError` on mismatch. -/
def validate (inner : List Nat) : Except PyErr Unit :=
  let expect := fromBytesLE (inner.drop (inner.length - 2))
  let calcd := sum16 ((inner.take (inner.length - 2)).drop 2)
  if calcd ≠ expect then .error (.runtimeError "Checksum mismatch")
  else .ok ()

/-! ### Reply decoder (`utils.py`, `decode_reply`) -/

/-- One parsed payload entry: a length-explicit `FE`/TLV block, or a
compact `[low][value]` pair. -/
inductive RE where
  | tlv (key : Nat) (val : List Nat)
  | compact (key : Nat) (val : Nat)
  deriving DecidableEq, Repr

/-- The decoded-reply mapping `{low_byte: raw_value_bytes}`. -/
def RMap : Type := Nat → Option (List Nat)

def emptyR : RMap := fun _ => none

/-- Python `out[k] = v`. -/
def dictSet (m : RMap) (k : Nat) (v : List Nat) : RMap :=
  fun k' => if k' = k then some v else m k'

/-- Python `out.setdefault(k, v)` (as a map transformer). -/
def dictSetdefault (m : RMap) (k : Nat) (v : List Nat) : RMap :=
  if (m k).isSome then m else dictSet m k v

/-- Effect of one parsed entry on the mapping: a TLV entry overwrites
(`out[p_low] = ...`), a compact pair is recorded only when the key is
absent (`out.setdefault`). -/
def applyEntry (m : RMap) : RE → RMap
  | .tlv k v => dictSet m k v
  | .compact k v => dictSetdefault m k [v]

def applyEntries (m : RMap) (es : List RE) : RMap :=
  es.foldl applyEntry m

/-- One iteration of the `while i < end` scan of `decode_reply`:
`none` models the loop ending (index reached `end`, or a `break`);
`some (j, entry)` gives the next scan index and the parsed entry. -/
def decodeStep (inner : List Nat) (e i : Nat) : Option (Nat × RE) :=
  if i < e then
    let b := inner.getD i 0
    if b = 254 then
      if e ≤ i + 1 then none
      else
        let vlen := inner.getD (i + 1) 0
        let idSize := if i + 3 < e ∧ inner.getD (i + 3) 0 = 0 then 2 else 1
        let pLow := inner.getD (i + 2) 0
        let valStart := i + 2 + idSize
        let valEnd := valStart + vlen
        if e < valEnd then none
        else some (valEnd, .tlv pLow ((inner.drop valStart).take vlen))
    else
      if e ≤ i + 1 then none
      else some (i + 2, .compact (inner.getD i 0) (inner.getD (i + 1) 0))
  else none

/-- The scan loop.  `fuel` is an upper bound on the number of remaining
iterations, an artifact of the embedding: every iteration advances the index
by at least 2 (see `decodeStep_advance`), so `e + 1 - i` iterations always
suffice and the `0` case is never reached from `decode_reply`'s call. -/
def decodeLoop (inner : List Nat) (e : Nat) : Nat → Nat → RMap → RMap
  | 0, _, out => out
  | fuel + 1, i, out =>
      match decodeStep inner e i with
      | none => out
      | some (j, en) => decodeLoop inner e fuel j (applyEntry out en)

/-- The list of entries parsed by the scan, in scan order. -/
def parsedEntries (inner : List Nat) (e : Nat) : Nat → Nat → List RE
  | 0, _ => []
  | fuel + 1, i =>
      match decodeStep inner e i with
      | none => []
      | some (j, en) => en :: parsedEntries inner e fuel j

/-- `decode_reply(inner)` modelled with total (defaulting) byte reads.
Header skip: `pos = 2+1+1+16`; `pwd_len = inner[pos]`;
`pos += 1 + pwd_len + 1`; `end = len(inner) - 2`. -/
def decode_replyP (inner : List Nat) : RMap :=
  let e := inner.length - 2
  let pos := 22 + inner.getD 20 0
  decodeLoop inner e (e + 1) pos emptyR

/-- The entry list parsed by `decode_reply(inner)`. -/
def parsed_reply (inner : List Nat) : List RE :=
  let e := inner.length - 2
  let pos := 22 + inner.getD 20 0
  parsedEntries inner e (e + 1) pos

/-! ### Fallible-read model of `decode_reply`

Python list indexing raises `IndexError` out of range; the next definitions
re-run the same scan with every `inner[...]` read checked, so that "the
decoder never raises" is a provable statement rather than a modelling
assumption. -/

/-- `l[i]` with Python's `IndexError`. -/
def pyGet (l : List Nat) (i : Nat) : Except PyErr Nat :=
  if h : i < l.length then .ok l[i] else .error .indexError

/-- One iteration of the scan with checked reads, in source order:
`inner[i]`, the `i+1 >= end` break check, `inner[i+1]`, the
`i + 3 < end and inner[i+3] == 0x00` lookahead, `inner[i+2]`. -/
def decodeStepE (inner : List Nat) (e i : Nat) : Except PyErr (Option (Nat × RE)) :=
  if i < e then
    match pyGet inner i with
    | .error err => .error err
    | .ok b =>
      if b = 254 then
        if e ≤ i + 1 then .ok none
        else
          match pyGet inner (i + 1) with
          | .error err => .error err
          | .ok vlen =>
            match (if i + 3 < e then (pyGet inner (i + 3)).map (· == 0) else .ok false) with
            | .error err => .error err
            | .ok hi0 =>
              match pyGet inner (i + 2) with
              | .error err => .error err
              | .ok pLow =>
                let idSize := if hi0 then 2 else 1
                let valStart := i + 2 + idSize
                let valEnd := valStart + vlen
                if e < valEnd then .ok none
                else .ok (some (valEnd, .tlv pLow ((inner.drop valStart).take vlen)))
      else
        if e ≤ i + 1 then .ok none
        else
          match pyGet inner i with
          | .error err => .error err
          | .ok k =>
            match pyGet inner (i + 1) with
            | .error err => .error err
            | .ok v => .ok (some (i + 2, .compact k v))
  else .ok none

def decodeLoopE (inner : List Nat) (e : Nat) : Nat → Nat → RMap → Except PyErr RMap
  | 0, _, out => .ok out
  | fuel + 1, i, out =>
      match decodeStepE inner e i with
      | .error err => .error err
      | .ok none => .ok out
      | .ok (some (j, en)) => decodeLoopE inner e fuel j (applyEntry out en)

/-- `decode_reply(inner)` with checked reads (the primary embedding). -/
def decode_reply (inner : List Nat) : Except PyErr RMap :=
  match pyGet inner 20 with
  | .error err => .error err
  | .ok pwdLen =>
      let e := inner.length - 2
      let pos := 22 + pwdLen
      decodeLoopE inner e (e + 1) pos emptyR

/-! ### Register model (`constant.py`) and Python values -/

inductive Fmt where
  | int
  | float
  | bool
  | str
  | ip
  | raw
  deriving DecidableEq, Repr

/-- The `Register` TypedDict.  `read_only` is a plain `Bool` because the code
only ever tests `reg.get("read_only")` for truthiness (absent ≡ false);
`scale`/`min`/`max`/`name`/`endian` stay optional because the code tests for
their presence. -/
structure Register where
  name : Option String := none
  parameter : List Nat
  count : Nat
  fmt : Fmt
  read_only : Bool := false
  min : Option ℤ := none
  max : Option ℤ := none
  scale : Option ℚ := none
  endian : Option Endian := none

/-- `_byteorder(reg)`: `reg.get("endian", "big")`. -/
def byteorder (reg : Register) : Endian :=
  reg.endian.getD .big

/-- Python runtime values flowing through the codec. -/
inductive PyVal where
  | intV (n : ℤ)
  | floatV (q : ℚ)
  | boolV (b : Bool)
  | strV (s : String)
  | bytesV (l : List Nat)
  deriving DecidableEq, Repr

/-- Python truthiness, `bool(value)`. -/
def pybool : PyVal → Bool
  | .intV n => n != 0
  | .floatV q => q != 0
  | .boolV b => b
  | .strV s => s ≠ ""
  | .bytesV l => l ≠ []

/-- Value of a run of decimal digits (most significant first). -/
def digitsVal (cs : List Char) : ℕ :=
  cs.foldl (fun a c => 10 * a + (c.toNat - 48)) 0

/-- Python `float(string)` literal parsing, on the forms the ℚ model can
express: optional surrounding ASCII whitespace, an optional sign, decimal
digits with an optional fractional part (at least one digit before or after
the point) and an optional decimal exponent.  Python additionally accepts
`inf`/`infinity`/`nan` (values with no ℚ counterpart, see the header note)
and underscore digit separators; those literal forms are outside this
model.  `none` models `ValueError`. -/
def pyParseFloat (s : String) : Option ℚ :=
  let ws : Char → Bool := fun c => c == ' ' || c == '\t' || c == '\n' || c == '\r'
  let cs := ((s.data.dropWhile ws).reverse.dropWhile ws).reverse
  let (sgn, cs) :=
    match cs with
    | '-' :: rest => ((-1 : ℚ), rest)
    | '+' :: rest => ((1 : ℚ), rest)
    | _ => ((1 : ℚ), cs)
  let (ip, cs) := cs.span Char.isDigit
  let (fp, cs) :=
    match cs with
    | '.' :: rest => rest.span Char.isDigit
    | _ => ([], cs)
  if ip.isEmpty && fp.isEmpty then none
  else
    let mant : ℚ := (digitsVal ip : ℚ) + (digitsVal fp : ℚ) / (10 : ℚ) ^ fp.length
    match cs with
    | [] => some (sgn * mant)
    | e :: rest =>
        if e == 'e' || e == 'E' then
          let (eneg, rest) :=
            match rest with
            | '-' :: r => (true, r)
            | '+' :: r => (false, r)
            | _ => (false, rest)
          let (ed, rest) := rest.span Char.isDigit
          if ed.isEmpty || !rest.isEmpty then none
          else
            let ex : ℚ := (10 : ℚ) ^ digitsVal ed
            some (sgn * mant * (if eneg then 1 / ex else ex))
        else none

/-- Python `float(value)` on the values the codec can receive: numbers pass
through, `bool` maps to 0/1, and strings or (ASCII) bytes are parsed as
float literals, raising `ValueError` on non-numeric text — `float()` never
raises `TypeError` for these argument types. -/
def pyfloat : PyVal → Except PyErr ℚ
  | .intV n => .ok n
  | .floatV q => .ok q
  | .boolV b => .ok (if b then 1 else 0)
  | .strV s =>
      match pyParseFloat s with
      | some q => .ok q
      | none => .error .valueError
  | .bytesV l =>
      if l.all (fun b => b ≤ 127) then
        match pyParseFloat (String.mk (l.map Char.ofNat)) with
        | some q => .ok q
        | none => .error .valueError
      else .error .valueError

/-- Python `str(value)`.  Exact for strings (the only case the claims
exercise); stand-in renderings elsewhere. -/
def pyStr : PyVal → String
  | .strV s => s
  | .intV n => toString n
  | .boolV b => if b then "True" else "False"
  | .floatV q => toString q
  | .bytesV _ => ""

/-- Numeric view of a value for the `<`/`>` bound comparisons in
`write_register` (non-numeric comparands would raise `TypeError`). -/
def pyNum : PyVal → Option ℚ
  | .intV n => some n
  | .floatV q => some q
  | .boolV b => some (if b then 1 else 0)
  | _ => none

/-- `int(q)` for a rational: truncation toward zero. -/
def pytrunc (q : ℚ) : ℤ :=
  if 0 ≤ q then ⌊q⌋ else -⌊-q⌋

/-- Python `round(q)`: round half to even (banker's rounding). -/
def pyround (q : ℚ) : ℤ :=
  let n := ⌊q⌋
  let f := q - n
  if f < 1 / 2 then n
  else if 1 / 2 < f then n + 1
  else if n % 2 = 0 then n else n + 1

/-- Python `round(q, 1)`: banker's rounding to one decimal place. -/
def pyround1 (q : ℚ) : ℚ :=
  (pyround (q * 10) : ℚ) / 10

/-- `s.encode("ascii", "strict")`: UnicodeEncodeError on any char > 0x7F. -/
def asciiEncode (s : String) : Except PyErr (List Nat) :=
  if s.data.all (fun c => c.toNat ≤ 127) then .ok (s.data.map Char.toNat)
  else .error .unicodeEncodeError

/-- Dotted-quad rendering used by the `"ip"` format. -/
def dottedQuad (l : List Nat) : String :=
  String.intercalate "." (l.map (fun b => toString b))

/-- Lowercase hex digit. -/
def hexDigit (n : Nat) : Char :=
  if n < 10 then Char.ofNat (48 + n) else Char.ofNat (97 + (n - 10))

/-- `bytes.hex()`: two lowercase hex digits per byte. -/
def bytesHex (l : List Nat) : String :=
  String.mk (l.map (fun b => [hexDigit (b / 16 % 16), hexDigit (b % 16)])).flatten

/-! ### Value codec (`vents.py`) -/

/-- `Vents._format_value(reg, raw)` — decode raw bytes to an engineering
value. -/
def format_value (reg : Register) (raw : List Nat) : PyVal :=
  match reg.fmt with
  | .int =>
      let val := fromBytes (byteorder reg) raw
      match reg.scale with
      | some s => .intV (pytrunc ((val : ℚ) * s))
      | none => .intV val
  | .float =>
      let val : ℚ := fromBytes (byteorder reg) raw
      let val := match reg.scale with
        | some s => val * s
        | none => val
      .floatV (pyround1 val)
  | .str =>
      if raw.all (fun b => b ≤ 127) then .strV (String.mk (raw.map Char.ofNat))
      else .strV (bytesHex raw)
  | .bool => .boolV (fromBytes (byteorder reg) raw != 0)
  | .ip => .strV (if raw.length = 4 then dottedQuad raw else "")
  | .raw => .bytesV raw

/-- `Vents._coerce_to_bytes(reg, value)` — encode an engineering value into
exactly `reg.count` bytes.  Note `isinstance(value, int)` accepts `bool`
(a subclass of `int` in Python). -/
def coerce_to_bytes (reg : Register) (v : PyVal) : Except PyErr (List Nat) :=
  let cnt := reg.count
  match reg.fmt with
  | .int =>
      match v with
      | .intV n => toBytes cnt (byteorder reg) n
      | .boolV b => toBytes cnt (byteorder reg) (if b then 1 else 0)
      | _ => .error (.ventsError "value must be int for fmt=int")
  | .float =>
      let s := reg.scale.getD 1
      match pyfloat v with
      | .error err => .error err
      | .ok q => toBytes cnt (byteorder reg) (pyround (q / s))
  | .bool =>
      if cnt ≠ 1 then .error (.ventsError "bool registers must have count=1")
      else .ok [if pybool v then 1 else 0]
  | .str =>
      match asciiEncode (pyStr v) with
      | .error err => .error err
      | .ok b =>
          if b.length ≠ cnt then .error (.ventsError "string length mismatch")
          else .ok b
  | .raw =>
      match v with
      | .bytesV b =>
          if b.length ≠ cnt then .error (.ventsError "raw length mismatch")
          else .ok b
      | _ => .error (.ventsError "fmt=raw expects bytes-like value")
  | .ip => .error (.ventsError "unsupported register fmt")

/-! ### Transport session (`vents.py`) -/

/-- `Vents.__init__`: `device_id.encode()[:16].ljust(16, b"0")` — truncate
the encoded identifier to 16 bytes, then pad on the right with ASCII `'0'`
up to length 16. -/
def normalize_device_id (dId : List Nat) : List Nat :=
  let t := dId.take 16
  t ++ List.replicate (16 - t.length) 48

/-- Everything of `Vents._build_frame` before the checksum trailer:
prefix, protocol type, size class, normalized device id, password length
byte, password, function code, body. -/
def frame_core (dId pw fn body : List Nat) : List Nat :=
  [253, 253] ++ [3] ++ [16] ++ normalize_device_id dId
    ++ [pw.length] ++ pw ++ fn ++ body

/-- `Vents._build_frame` (composed with the `__init__` normalization of the
device id).  `len(passwd).to_bytes(1, "big")` raises `OverflowError` for a
password longer than 255 bytes. -/
def build_frame (dId pw fn body : List Nat) : Except PyErr (List Nat) :=
  if 255 < pw.length then .error .overflowError
  else
    let core := frame_core dId pw fn body
    .ok (core ++ u16_le (sum16 (core.drop 2)))

/-- `Vents._key_for(reg)`: `reg.get("name") or reg["parameter"].hex()` —
Python's `or` also falls back on an empty (falsy) name. -/
def key_for (reg : Register) : String :=
  match reg.name with
  | some n => if n = "" then bytesHex reg.parameter else n
  | none => bytesHex reg.parameter

/-- The result dictionary of `read_registers`. -/
def SMap : Type := String → Option PyVal

def emptyS : SMap := fun _ => none

def dictSetS (m : SMap) (k : String) (v : PyVal) : SMap :=
  fun k' => if k' = k then some v else m k'

/-- `Vents.read_register` after the network exchange, as a function of the
decoded reply `kv`: look up the parameter's low byte, raise `VentsError`
when absent, else format. -/
def read_register_post (reg : Register) (kv : RMap) : Except PyErr PyVal :=
  match kv (reg.parameter.getD 1 0) with
  | none => .error (.ventsError "register not found in reply")
  | some raw => .ok (format_value reg raw)

/-- The `for r in regs` loop of `Vents.read_registers`, acting on the result
dictionary `out`. -/
def read_registers_go (kv : RMap) : List Register → SMap → SMap
  | [], out => out
  | r :: rest, out =>
      match kv (r.parameter.getD 1 0) with
      | none => read_registers_go kv rest out
      | some raw => read_registers_go kv rest (dictSetS out (key_for r) (format_value r raw))

/-- `Vents.read_registers` after the network exchange: descriptors missing
from the reply are skipped, the rest inserted under `_key_for`. -/
def read_registers_post (regs : List Register) (kv : RMap) : SMap :=
  read_registers_go kv regs emptyS

/-- `if "min" in reg: if value < reg["min"]: raise VentsError(...)` —
a non-numeric comparand would raise `TypeError` in Python.  Interpolated
message text is elided. -/
def bound_below (reg : Register) (v : PyVal) : Except PyErr Unit :=
  match reg.min with
  | none => .ok ()
  | some m =>
      match pyNum v with
      | none => .error .typeError
      | some q => if q < (m : ℚ) then .error (.ventsError "value < min") else .ok ()

/-- `if "max" in reg: if value > reg["max"]: raise VentsError(...)`. -/
def bound_above (reg : Register) (v : PyVal) : Except PyErr Unit :=
  match reg.max with
  | none => .ok ()
  | some m =>
      match pyNum v with
      | none => .error .typeError
      | some q => if (m : ℚ) < q then .error (.ventsError "value > max") else .ok ()

/-- Step 3 of `write_register`: `if reg["fmt"] in (int, float): ...` — the
tuple membership test is type identity, so `bool` registers are *not*
bounds-checked (`bool == int` is false for the type objects themselves). -/
def bounds_check (reg : Register) (v : PyVal) : Except PyErr Unit :=
  if reg.fmt = Fmt.int ∨ reg.fmt = Fmt.float then
    match bound_below reg v with
    | .error err => .error err
    | .ok _ => bound_above reg v
  else .ok ()

/-- `Vents.write_register` up to (and excluding) the UDP send: the read-only
guard, value coercion, optional bounds checks, the 1-byte-width guard, and
the `0 <= value <= 255` recheck in `_request`.  `.ok body` means control
reaches the network exchange with request body `body`. -/
def write_register_pre (reg : Register) (v : PyVal) : Except PyErr (List Nat) :=
  if reg.read_only then
    .error (.ventsError ("register '" ++ reg.name.getD (bytesHex reg.parameter)
      ++ "' is read-only"))
  else
    match coerce_to_bytes reg v with
    | .error err => .error err
    | .ok raw =>
        match bounds_check reg v with
        | .error err => .error err
        | .ok _ =>
            if raw.length ≠ 1 then
              .error (.ventsError
                "only 1-byte compact writes supported for now (FE/TLV write not implemented)")
            else if 255 < raw.getD 0 0 then
              .error (.ventsError "Only 1-byte compact writes supported right now")
            else .ok [reg.parameter.getD 1 0, raw.getD 0 0]

/-! ### Register catalog (`constant.py`, the active descriptors used here) -/

def POWER_ON : Register :=
  { parameter := [0, 1], count := 1, fmt := .bool, name := some "power_on",
    min := some 0, max := some 1 }

def SPEED : Register :=
  { parameter := [0, 2], count := 1, fmt := .int, name := some "speed",
    min := some 1, max := some 3 }

def TARGET_TEMP : Register :=
  { parameter := [0, 24], count := 1, fmt := .int, name := some "target_temp",
    min := some 15, max := some 30 }

def CURRENT_HUMIDITY : Register :=
  { parameter := [0, 37], count := 1, fmt := .float, name := some "current_humidity",
    read_only := true }

def EXHAUST_IN_TEMPERATURE : Register :=
  { parameter := [0, 31], count := 2, fmt := .float, name := some "exhaust_in_temperature",
    read_only := true, scale := some (1 / 10), endian := some .little }

/-! ### Spec-modelled decoder variant for the disambiguation heuristic

Modelled from the spec: at the sentinel `0xFE` “attempt the two-byte
interpretation first, and accept it only if (a) the resulting value region
fits within the remaining payload and (b) the byte immediately following the
two candidate address bytes — the presumed page byte — falls within the four
page indices 0–3; otherwise fall back to the one-byte address
interpretation.”  Everything else mirrors `decodeStep`. -/
def decodeStep_specC1 (inner : List Nat) (e i : Nat) : Option (Nat × RE) :=
  if i < e then
    let b := inner.getD i 0
    if b = 254 then
      if e ≤ i + 1 then none
      else
        let vlen := inner.getD (i + 1) 0
        let twoByteOk :=
          i + 4 + vlen ≤ e ∧ inner.getD (i + 4) 0 ≤ 3
        let idSize := if twoByteOk then 2 else 1
        let pLow := inner.getD (i + 2) 0
        let valStart := i + 2 + idSize
        let valEnd := valStart + vlen
        if e < valEnd then none
        else some (valEnd, .tlv pLow ((inner.drop valStart).take vlen))
    else
      if e ≤ i + 1 then none
      else some (i + 2, .compact (inner.getD i 0) (inner.getD (i + 1) 0))
  else none

def decodeLoop_specC1 (inner : List Nat) (e : Nat) : Nat → Nat → RMap → RMap
  | 0, _, out => out
  | fuel + 1, i, out =>
      match decodeStep_specC1 inner e i with
      | none => out
      | some (j, en) => decodeLoop_specC1 inner e fuel j (applyEntry out en)

/-- The reply decoder as the claim's heuristic describes it. -/
def decode_reply_specC1 (inner : List Nat) : RMap :=
  let e := inner.length - 2
  let pos := 22 + inner.getD 20 0
  decodeLoop_specC1 inner e (e + 1) pos emptyR

/-! ### List helpers -/

theorem set_append_left (l₁ l₂ : List Nat) (k c : Nat) (h : k < l₁.length) :
    (l₁ ++ l₂).set k c = l₁.set k c ++ l₂ := by
  induction l₁ generalizing k with
  | nil => simp at h
  | cons a t ih =>
      cases k with
      | zero => simp [List.set]
      | succ k' =>
          have h' : k' < t.length := by simpa using h
          simp only [List.cons_append, List.set, List.append_eq]
          rw [ih _ h']

theorem set_append_right (l₁ l₂ : List Nat) (j c : Nat) :
    (l₁ ++ l₂).set (l₁.length + j) c = l₁ ++ l₂.set j c := by
  induction l₁ with
  | nil => simp
  | cons a t ih =>
      simp only [List.cons_append, List.length_cons]
      have : t.length + 1 + j = (t.length + j) + 1 := by omega
      rw [this]
      simp [List.set, ih]

theorem getD_append_right (l₁ l₂ : List Nat) (j d : Nat) :
    (l₁ ++ l₂).getD (l₁.length + j) d = l₂.getD j d := by
  induction l₁ with
  | nil => simp
  | cons a t ih =>
      simp only [List.cons_append, List.length_cons]
      have : t.length + 1 + j = (t.length + j) + 1 := by omega
      rw [this]
      simpa using ih

theorem sum_set (l : List Nat) (j c : Nat) (h : j < l.length) :
    (l.set j c).sum + l.getD j 0 = l.sum + c := by
  induction l generalizing j with
  | nil => simp at h
  | cons a t ih =>
      cases j with
      | zero => simp [List.set]; omega
      | succ j' =>
          simp only [List.set, List.sum_cons, List.getD_cons_succ]
          have := ih j' (by simpa using h)
          omega

theorem getD_lt_of_forall (l : List Nat) (j : Nat) (h : j < l.length)
    (hb : ∀ b ∈ l, b < 256) : l.getD j 0 < 256 := by
  rw [List.getD_eq_getElem l 0 h]
  exact hb _ (List.getElem_mem h)

/-! ### Byte-arithmetic lemmas -/

theorem fromBytesLE_u16_le (v : Nat) : fromBytesLE (u16_le v) = v % 65536 := by
  simp only [u16_le, fromBytesLE]
  omega

theorem toBytesLE_length (cnt v : Nat) : (toBytesLE cnt v).length = cnt := by
  induction cnt generalizing v with
  | zero => rfl
  | succ n ih => simp [toBytesLE, ih]

theorem fromBytesLE_toBytesLE (cnt n : Nat) (h : n < 256 ^ cnt) :
    fromBytesLE (toBytesLE cnt n) = n := by
  induction cnt generalizing n with
  | zero =>
      simp only [pow_zero, Nat.lt_one_iff] at h
      simp [h, toBytesLE, fromBytesLE]
  | succ c ih =>
      simp only [toBytesLE, fromBytesLE]
      rw [ih (n / 256) (by
        have : 256 ^ (c + 1) = 256 ^ c * 256 := by ring
        omega)]
      omega

theorem fromBytes_single (en : Endian) (x : Nat) : fromBytes en [x] = x := by
  cases en <;> simp [fromBytes, fromBytesLE]

theorem toBytes_ok (cnt : Nat) (en : Endian) (v : ℤ)
    (h0 : 0 ≤ v) (h1 : v < (256 : ℤ) ^ cnt) :
    ∃ w, toBytes cnt en v = .ok w ∧ fromBytes en w = v.toNat ∧ w.length = cnt := by
  have hnot : ¬ (v < 0 ∨ (256 : ℤ) ^ cnt ≤ v) := by
    push_neg
    exact ⟨h0, h1⟩
  have hlt : v.toNat < 256 ^ cnt := by
    have : ((v.toNat : ℤ)) = v := Int.toNat_of_nonneg h0
    have hcast : ((256 ^ cnt : ℕ) : ℤ) = (256 : ℤ) ^ cnt := by push_cast; ring
    omega
  cases en with
  | little =>
      refine ⟨toBytesLE cnt v.toNat, ?_, ?_, toBytesLE_length cnt v.toNat⟩
      · simp [toBytes, hnot]
      · simpa [fromBytes] using fromBytesLE_toBytesLE cnt v.toNat hlt
  | big =>
      refine ⟨(toBytesLE cnt v.toNat).reverse, ?_, ?_, by simp [toBytesLE_length]⟩
      · simp [toBytes, hnot]
      · simpa [fromBytes] using fromBytesLE_toBytesLE cnt v.toNat hlt

/-! ### Frame lemmas -/

theorem normalize_device_id_length (d : List Nat) :
    (normalize_device_id d).length = 16 := by
  simp only [normalize_device_id, List.length_append, List.length_replicate,
    List.length_take]
  omega

theorem validate_core_append (core : List Nat) :
    validate (core ++ u16_le (sum16 (core.drop 2))) = .ok () := by
  unfold validate
  have hlen : (core ++ u16_le (sum16 (core.drop 2))).length = core.length + 2 := by
    simp [u16_le]
  rw [hlen]
  have h2 : core.length + 2 - 2 = core.length := by omega
  rw [h2, List.drop_left, List.take_left, fromBytesLE_u16_le]
  have hm : sum16 (core.drop 2) % 65536 = sum16 (core.drop 2) := by
    unfold sum16
    omega
  rw [hm]
  simp

/-! ### Decoder loop lemmas -/

theorem decodeStep_advance (inner : List Nat) (e i j : Nat) (en : RE)
    (h : decodeStep inner e i = some (j, en)) :
    i + 2 ≤ j ∧ j ≤ e ∧
      (∀ k v, en = .compact k v → j = i + 2) ∧
      (∀ k v, en = .tlv k v → i + 3 ≤ j) := by
  simp only [decodeStep] at h
  split_ifs at h with h1 h2 h3 h4 h5 h6 <;>
    simp only [Option.some.injEq, Prod.mk.injEq, reduceCtorEq] at h
  · obtain ⟨hj, hen⟩ := h
    subst hj hen
    exact ⟨by omega, by omega, fun k v hkv => by simp at hkv, fun k v _ => by omega⟩
  · obtain ⟨hj, hen⟩ := h
    subst hj hen
    exact ⟨by omega, by omega, fun k v hkv => by simp at hkv, fun k v _ => by omega⟩
  · obtain ⟨hj, hen⟩ := h
    subst hj hen
    exact ⟨by omega, by omega, fun k v _ => by omega, fun k v hkv => by simp at hkv⟩

theorem decodeStep_none_of_le (inner : List Nat) (e i : Nat) (h : e ≤ i) :
    decodeStep inner e i = none := by
  simp only [decodeStep]
  rw [if_neg (by omega)]

/-- Fuel irrelevance: any fuel of at least `e + 1 - i` iterations computes
the same result, because every step advances the index by at least 2. -/
theorem decodeLoop_fuel (inner : List Nat) (e : Nat) :
    ∀ n m i out, e + 1 ≤ n + i → e + 1 ≤ m + i →
      decodeLoop inner e n i out = decodeLoop inner e m i out := by
  intro n
  induction n with
  | zero =>
      intro m i out hn hm
      cases m with
      | zero => rfl
      | succ m' =>
          simp only [decodeLoop]
          rw [decodeStep_none_of_le inner e i (by omega)]
  | succ n' ih =>
      intro m i out hn hm
      cases m with
      | zero =>
          simp only [decodeLoop]
          rw [decodeStep_none_of_le inner e i (by omega)]
      | succ m' =>
          simp only [decodeLoop]
          cases hstep : decodeStep inner e i with
          | none => rfl
          | some p =>
              obtain ⟨j, en⟩ := p
              have hadv := decodeStep_advance inner e i j en hstep
              exact ih m' j (applyEntry out en) (by omega) (by omega)

theorem parsedEntries_fuel (inner : List Nat) (e : Nat) :
    ∀ n m i, e + 1 ≤ n + i → e + 1 ≤ m + i →
      parsedEntries inner e n i = parsedEntries inner e m i := by
  intro n
  induction n with
  | zero =>
      intro m i hn hm
      cases m with
      | zero => rfl
      | succ m' =>
          simp only [parsedEntries]
          rw [decodeStep_none_of_le inner e i (by omega)]
  | succ n' ih =>
      intro m i hn hm
      cases m with
      | zero =>
          simp only [parsedEntries]
          rw [decodeStep_none_of_le inner e i (by omega)]
      | succ m' =>
          simp only [parsedEntries]
          cases hstep : decodeStep inner e i with
          | none => rfl
          | some p =>
              obtain ⟨j, en⟩ := p
              have hadv := decodeStep_advance inner e i j en hstep
              exact congrArg (fun l => en :: l) (ih m' j (by omega) (by omega))

/-- The scan loop is the fold of its parsed-entry trace over the dictionary
operations. -/
theorem decodeLoop_eq_applyEntries (inner : List Nat) (e : Nat) :
    ∀ fuel i out,
      decodeLoop inner e fuel i out = applyEntries out (parsedEntries inner e fuel i) := by
  intro fuel
  induction fuel with
  | zero => intro i out; rfl
  | succ n ih =>
      intro i out
      simp only [decodeLoop, parsedEntries]
      cases hstep : decodeStep inner e i with
      | none => rfl
      | some p =>
          obtain ⟨j, en⟩ := p
          simpa [applyEntries] using ih j (applyEntry out en)

theorem decode_replyP_eq_applyEntries (inner : List Nat) :
    decode_replyP inner = applyEntries emptyR (parsed_reply inner) := by
  unfold decode_replyP parsed_reply
  exact decodeLoop_eq_applyEntries ..

/-! ### Checked-read scan agrees with the total scan (in-bounds inputs) -/

theorem pyGet_ok (l : List Nat) (i : Nat) (h : i < l.length) :
    pyGet l i = .ok (l.getD i 0) := by
  simp [pyGet, h, List.getD_eq_getElem l 0 h]

theorem decodeStepE_ok (inner : List Nat) (e i : Nat) (h : e + 2 ≤ inner.length) :
    decodeStepE inner e i = .ok (decodeStep inner e i) := by
  by_cases hie : i < e
  · have g0 := pyGet_ok inner i (by omega)
    by_cases hb : inner[i]?.getD 0 = 254
    · by_cases hbr : e ≤ i + 1
      · simp [decodeStepE, decodeStep, hie, hb, hbr, g0]
      · have g1 := pyGet_ok inner (i + 1) (by omega)
        have g2 := pyGet_ok inner (i + 2) (by omega)
        by_cases hlook : i + 3 < e
        · have g3 := pyGet_ok inner (i + 3) (by omega)
          by_cases hz : inner[i + 3]?.getD 0 = 0
          · simp [decodeStepE, decodeStep, hie, hb, hbr, hlook, hz, g0, g1, g2, g3,
              Except.map, apply_ite]
          · simp [decodeStepE, decodeStep, hie, hb, hbr, hlook, hz, g0, g1, g2, g3,
              Except.map, apply_ite]
        · simp [decodeStepE, decodeStep, hie, hb, hbr, hlook, g0, g1, g2, apply_ite]
    · by_cases hbr : e ≤ i + 1
      · simp [decodeStepE, decodeStep, hie, hb, hbr, g0]
      · have g1 := pyGet_ok inner (i + 1) (by omega)
        simp [decodeStepE, decodeStep, hie, hb, hbr, g0, g1]
  · simp [decodeStepE, decodeStep, hie]

theorem decodeLoopE_ok (inner : List Nat) (e : Nat) (h : e + 2 ≤ inner.length) :
    ∀ fuel i out, decodeLoopE inner e fuel i out = .ok (decodeLoop inner e fuel i out) := by
  intro fuel
  induction fuel with
  | zero => intro i out; rfl
  | succ n ih =>
      intro i out
      simp only [decodeLoopE, decodeLoop, decodeStepE_ok inner e i h]
      cases decodeStep inner e i with
      | none => rfl
      | some p => exact ih p.1 (applyEntry out p.2)

/-- Under a complete fixed header the checked-read decoder never raises and
agrees with the total model. -/
theorem decode_reply_ok (inner : List Nat) (h : 21 ≤ inner.length) :
    decode_reply inner = .ok (decode_replyP inner) := by
  unfold decode_reply decode_replyP
  rw [pyGet_ok inner 20 (by omega)]
  exact decodeLoopE_ok inner (inner.length - 2) (by omega) ..

/-! ### Rounding lemmas -/

theorem pyround_abs (q : ℚ) : |(pyround q : ℚ) - q| ≤ 1 / 2 := by
  have hfl : (⌊q⌋ : ℚ) ≤ q := Int.floor_le q
  have hfu : q < ⌊q⌋ + 1 := Int.lt_floor_add_one q
  simp only [pyround]
  split_ifs with h1 h2 h3 <;>
    rw [abs_sub_le_iff] <;>
    constructor <;>
    push_cast <;>
    linarith

theorem pyround_intCast (n : ℤ) : pyround (n : ℚ) = n := by
  simp only [pyround]
  rw [Int.floor_intCast]
  simp

theorem pyround1_abs (q : ℚ) : |pyround1 q - q| ≤ 1 / 20 := by
  have h := pyround_abs (q * 10)
  unfold pyround1
  rw [show (pyround (q * 10) : ℚ) / 10 - q = ((pyround (q * 10) : ℚ) - q * 10) / 10 by ring,
    abs_div]
  rw [show |(10 : ℚ)| = 10 by norm_num]
  linarith [abs_nonneg ((pyround (q * 10) : ℚ) - q * 10)]

theorem pyround1_intCast (n : ℤ) : pyround1 (n : ℚ) = n := by
  unfold pyround1
  have h1 : ((n : ℚ) * 10) = ((n * 10 : ℤ) : ℚ) := by push_cast; ring
  rw [h1, pyround_intCast]
  push_cast
  rw [mul_div_assoc]
  norm_num

theorem pyround1_natCast (n : ℕ) : pyround1 (n : ℚ) = n := by
  have h1 : ((n : ℚ)) = ((n : ℤ) : ℚ) := by push_cast; ring
  rw [h1, pyround1_intCast]

/-! ### Precedence machinery for the decoded-reply mapping -/

/-- Value of the last TLV entry for `k` in an entry list, if any. -/
def lastTlvVal : List RE → Nat → Option (List Nat)
  | [], _ => none
  | .tlv k' v :: rest, k =>
      match lastTlvVal rest k with
      | some w => some w
      | none => if k' = k then some v else none
  | .compact _ _ :: rest, k => lastTlvVal rest k

/-- Value of the first compact entry for `k` in an entry list, if any. -/
def firstCompactVal : List RE → Nat → Option (List Nat)
  | [], _ => none
  | .compact k' v :: rest, k =>
      if k' = k then some [v] else firstCompactVal rest k
  | .tlv _ _ :: rest, k => firstCompactVal rest k

/-- `a` if present, else `b`. -/
def orElseO (a b : Option (List Nat)) : Option (List Nat) :=
  match a with
  | some x => some x
  | none => b

theorem applyEntries_lookup (es : List RE) :
    ∀ (out : RMap) (k : Nat),
      applyEntries out es k
        = orElseO (lastTlvVal es k) (orElseO (out k) (firstCompactVal es k)) := by
  induction es with
  | nil =>
      intro out k
      cases h : out k <;> simp [applyEntries, lastTlvVal, firstCompactVal, orElseO, h]
  | cons en rest ih =>
      intro out k
      cases en with
      | tlv k' v =>
          have step : applyEntries out (.tlv k' v :: rest)
              = applyEntries (dictSet out k' v) rest := rfl
          rw [step, ih]
          by_cases hk : k = k'
          · subst hk
            simp only [lastTlvVal, dictSet, if_pos rfl]
            cases hrest : lastTlvVal rest k <;> simp [orElseO]
          · have hne : ¬ k' = k := fun hc => hk hc.symm
            simp only [lastTlvVal, dictSet, if_neg hk, if_neg hne, firstCompactVal]
            cases hrest : lastTlvVal rest k <;> simp [orElseO]
      | compact k' v =>
          have step : applyEntries out (.compact k' v :: rest)
              = applyEntries (dictSetdefault out k' [v]) rest := rfl
          rw [step, ih]
          by_cases hk : k = k'
          · subst hk
            simp only [lastTlvVal, firstCompactVal, if_pos rfl]
            unfold dictSetdefault dictSet
            cases hout : out k with
            | some u => simp [hout, orElseO]
            | none => simp [hout, orElseO]
          · have hne : ¬ k' = k := fun hc => hk hc.symm
            simp only [lastTlvVal, firstCompactVal, if_neg hne]
            have hdd : dictSetdefault out k' [v] k = out k := by
              unfold dictSetdefault dictSet
              split_ifs with hs
              · rfl
              · simp [if_neg hk]
            rw [hdd]

/-! ## Claim theorems -/

/-- Concrete validated inner frame for claim C1: payload `FE 01 25 00 63`
(a TLV with 2-byte LE address `0x0025` and value byte `0x63`). -/
def frameC1 : List Nat :=
  [253, 253, 3, 16] ++ List.replicate 16 48 ++ [0, 6, 254, 1, 37, 0, 99, 160, 4]

/-- C1 (counterexample): on a validated inner frame the code keys `0x25` to
the byte `0x63`, while the claim's heuristic (value-region-fit plus page byte
in 0–3 at the position after the two candidate address bytes) rejects the
two-byte reading there and keys `0x25` to `0x00` instead. -/
theorem tlv_heuristic_counterexample :
    validate frameC1 = .ok () ∧
      decode_replyP frameC1 37 = some [99] ∧
      decode_reply_specC1 frameC1 37 = some [0] :=
  ⟨by decide, by decide, by decide⟩

/-- C1 (amended): at the `0xFE` sentinel the decoder takes the two-byte
little-endian address reading iff index `i+3` lies strictly inside the
payload and the byte there — the candidate high/page byte itself — equals
`0x00`; otherwise it takes the one-byte reading.  No value-region-fit test
and no page-set `{0,1,2,3}` membership take part in the choice (the value
region is checked only afterwards, ending the scan on overrun). -/
theorem tlv_heuristic_amended (inner : List Nat) (e i : Nat)
    (hie : i < e) (hb : inner.getD i 0 = 254) (hbr : i + 1 < e) :
    (i + 3 < e ∧ inner.getD (i + 3) 0 = 0 →
      decodeStep inner e i =
        if e < i + 4 + inner.getD (i + 1) 0 then none
        else some (i + 4 + inner.getD (i + 1) 0,
          .tlv (inner.getD (i + 2) 0) ((inner.drop (i + 4)).take (inner.getD (i + 1) 0)))) ∧
    (¬ (i + 3 < e ∧ inner.getD (i + 3) 0 = 0) →
      decodeStep inner e i =
        if e < i + 3 + inner.getD (i + 1) 0 then none
        else some (i + 3 + inner.getD (i + 1) 0,
          .tlv (inner.getD (i + 2) 0) ((inner.drop (i + 3)).take (inner.getD (i + 1) 0)))) := by
  constructor
  · intro h2
    simp only [decodeStep]
    rw [if_pos hie, hb, if_pos rfl, if_neg (show ¬ e ≤ i + 1 by omega), if_pos h2]
  · intro h2
    simp only [decodeStep]
    rw [if_pos hie, hb, if_pos rfl, if_neg (show ¬ e ≤ i + 1 by omega), if_neg h2]

theorem tlv_heuristic_amended_witness :
    decodeStep frameC1 27 22 = some (27, .tlv 37 [99]) := by
  have h := (tlv_heuristic_amended frameC1 27 22 (by decide) (by decide) (by decide)).1
    (by decide)
  rw [h]
  decide

/-- C4: the mapping the decoder returns satisfies exactly the claimed
precedence: at every key, the last length-explicit (TLV) entry's bytes win;
failing any TLV entry for that key, the first compact pair's byte wins. -/
theorem decode_reply_precedence (inner : List Nat) (k : Nat) :
    decode_replyP inner k
      = orElseO (lastTlvVal (parsed_reply inner) k)
          (firstCompactVal (parsed_reply inner) k) := by
  rw [decode_replyP_eq_applyEntries, applyEntries_lookup]
  cases lastTlvVal (parsed_reply inner) k <;> simp [orElseO, emptyR]

/-- Inner frame for claim C5: its single TLV entry declares a 5-byte value
that overruns the payload end. -/
def frameC5 : List Nat :=
  [253, 253, 3, 16] ++ List.replicate 16 48 ++ [0, 6, 254, 5, 16, 32, 0, 0]

/-- C5: when the fixed header region is complete, the decoder (with every
byte read checked against `IndexError`) never fails: it returns exactly the
mapping folded from the fully parsed entries; and a TLV entry whose declared
value region would overrun the payload end stops the scan. -/
theorem decode_reply_truncation_safety (inner : List Nat)
    (h : 22 + inner.getD 20 0 ≤ inner.length) :
    decode_reply inner = .ok (applyEntries emptyR (parsed_reply inner)) ∧
      (∀ e i, i < e → inner.getD i 0 = 254 → i + 1 < e →
        e < i + 2 + (if i + 3 < e ∧ inner.getD (i + 3) 0 = 0 then 2 else 1)
            + inner.getD (i + 1) 0 →
        decodeStep inner e i = none) := by
  constructor
  · rw [decode_reply_ok inner (by omega), decode_replyP_eq_applyEntries]
  · intro e i hie hb hbr hover
    simp only [decodeStep]
    rw [if_pos hie, hb, if_pos rfl, if_neg (show ¬ e ≤ i + 1 by omega), if_pos hover]

theorem decode_reply_truncation_safety_witness :
    decode_reply frameC5 = .ok (applyEntries emptyR (parsed_reply frameC5)) ∧
      decodeStep frameC5 26 22 = none := by
  have h := decode_reply_truncation_safety frameC5 (by decide)
  exact ⟨h.1, h.2 26 22 (by decide) (by decide) (by decide) (by decide)⟩

/-- C10: every loop iteration either ends the scan or advances the scan
index: a compact pair by exactly 2, an accepted TLV entry past its value
region (at least 3); consequently any fuel of at least `e + 1 - i`
iterations computes the loop's result, i.e. the scan ends after finitely
many steps. -/
theorem decode_loop_termination :
    (∀ (inner : List Nat) (e i j : Nat) (en : RE),
        decodeStep inner e i = some (j, en) →
          i + 2 ≤ j ∧ j ≤ e ∧
            (∀ k v, en = .compact k v → j = i + 2) ∧
            (∀ k v, en = .tlv k v → i + 3 ≤ j)) ∧
    (∀ (inner : List Nat) (e n m i : Nat) (out : RMap),
        e + 1 ≤ n + i → e + 1 ≤ m + i →
          decodeLoop inner e n i out = decodeLoop inner e m i out) :=
  ⟨decodeStep_advance,
    fun inner e n m i out hn hm => decodeLoop_fuel inner e n m i out hn hm⟩

theorem decode_loop_termination_witness :
    (0 + 2 ≤ 2 ∧ 2 ≤ 2 ∧
      (∀ k v, RE.compact 0 5 = RE.compact k v → 2 = 0 + 2) ∧
      (∀ k v, RE.compact 0 5 = RE.tlv k v → 0 + 3 ≤ 2)) ∧
    decodeLoop [0, 5] 2 3 0 emptyR = decodeLoop [0, 5] 2 5 0 emptyR :=
  ⟨decode_loop_termination.1 [0, 5] 2 0 2 (.compact 0 5) (by decide),
    decode_loop_termination.2 [0, 5] 2 3 5 0 emptyR (by decide) (by decide)⟩

/-- C9 (counterexample): a 3-byte identifier is padded on the *right* with
ASCII `'0'`, not on the left as the claim states. -/
theorem device_id_padding_counterexample :
    normalize_device_id [65, 66, 67] = [65, 66, 67] ++ List.replicate 13 48 ∧
      normalize_device_id [65, 66, 67] ≠ List.replicate 13 48 ++ [65, 66, 67] :=
  ⟨by decide, by decide⟩

/-- C9 (amended): the stored identifier is always exactly 16 bytes:
identifiers longer than 16 bytes are truncated to the first 16, and shorter
ones are right-padded with ASCII `'0'`. -/
theorem device_id_padding_amended (dId : List Nat) :
    (normalize_device_id dId).length = 16 ∧
      (16 ≤ dId.length → normalize_device_id dId = dId.take 16) ∧
      (dId.length < 16 →
        normalize_device_id dId = dId ++ List.replicate (16 - dId.length) 48) := by
  refine ⟨normalize_device_id_length dId, ?_, ?_⟩
  · intro h
    have ht : (dId.take 16).length = 16 := by
      rw [List.length_take]
      omega
    simp only [normalize_device_id]
    rw [ht]
    simp
  · intro h
    simp only [normalize_device_id]
    rw [List.take_of_length_le (by omega)]

theorem device_id_padding_amended_witness :
    (normalize_device_id (List.replicate 20 65)).length = 16 ∧
      normalize_device_id (List.replicate 20 65) = (List.replicate 20 65).take 16 ∧
      normalize_device_id [65, 66, 67] = [65, 66, 67] ++ List.replicate 13 48 :=
  ⟨(device_id_padding_amended (List.replicate 20 65)).1,
    (device_id_padding_amended (List.replicate 20 65)).2.1 (by decide),
    (device_id_padding_amended [65, 66, 67]).2.2 (by decide)⟩

/-- Flipping one byte (position `pre.length + j`, new value `c`) inside the
checksum-covered region of a framed message makes `validate` fail. -/
theorem validate_flip (pre body : List Nat) (j c : Nat)
    (hpre : 2 ≤ pre.length) (hj : j < body.length) (hc : c < 256)
    (hold : body.getD j 0 < 256) (hne : c ≠ body.getD j 0) :
    validate (((pre ++ body).set (pre.length + j) c)
        ++ u16_le (sum16 ((pre ++ body).drop 2)))
      = .error (.runtimeError "Checksum mismatch") := by
  rw [set_append_right]
  simp only [validate]
  have hlenF : ((pre ++ body.set j c) ++ u16_le (sum16 ((pre ++ body).drop 2))).length
      = (pre ++ body.set j c).length + 2 := by
    simp only [List.length_append, u16_le, List.length_cons, List.length_nil]
  rw [hlenF]
  have h2 : (pre ++ body.set j c).length + 2 - 2 = (pre ++ body.set j c).length := by
    omega
  rw [h2, List.drop_left, List.take_left, fromBytesLE_u16_le,
    List.drop_append_of_le_length hpre, List.drop_append_of_le_length hpre]
  have hsum := sum_set body j c hj
  have hcond : sum16 (pre.drop 2 ++ body.set j c)
      ≠ sum16 (pre.drop 2 ++ body) % 65536 := by
    simp only [sum16, List.sum_append]
    intro hEq
    omega
  rw [if_pos hcond]

/-- C2: the frame builder appends, as its final two bytes, the little-endian
sum (mod 65536) of all bytes from offset 2; `validate` accepts every frame
it produces, and flipping any single byte of the body region makes
`validate` fail with the checksum-mismatch error. -/
theorem build_frame_checksum (dId pw fn body : List Nat)
    (hpw : pw.length ≤ 255) (hbody : ∀ b ∈ body, b < 256) :
    ∃ F, build_frame dId pw fn body = .ok F ∧
      F = frame_core dId pw fn body
            ++ u16_le (sum16 ((frame_core dId pw fn body).drop 2)) ∧
      validate F = .ok () ∧
      ∀ j c, j < body.length → c < 256 → c ≠ body.getD j 0 →
        validate (F.set (21 + pw.length + fn.length + j) c)
          = .error (.runtimeError "Checksum mismatch") := by
  refine ⟨frame_core dId pw fn body ++ u16_le (sum16 ((frame_core dId pw fn body).drop 2)),
    ?_, rfl, validate_core_append _, ?_⟩
  · simp [build_frame, show ¬ 255 < pw.length by omega]
  · intro j c hj hc hne
    have hsplit : frame_core dId pw fn body
        = ([253, 253] ++ [3] ++ [16] ++ normalize_device_id dId
            ++ [pw.length] ++ pw ++ fn) ++ body := by
      simp [frame_core, List.append_assoc]
    set listA := [253, 253] ++ [3] ++ [16] ++ normalize_device_id dId
        ++ [pw.length] ++ pw ++ fn with hA
    have hlenA : listA.length = 21 + pw.length + fn.length := by
      rw [hA]
      simp only [List.length_append, List.length_cons, List.length_nil,
        normalize_device_id_length]
    have hpos : 21 + pw.length + fn.length + j = listA.length + j := by omega
    rw [hsplit, hpos]
    have hplt : listA.length + j < (listA ++ body).length := by
      simp only [List.length_append]
      omega
    rw [set_append_left _ _ _ _ hplt]
    exact validate_flip listA body j c (by omega) hj hc
      (getD_lt_of_forall body j hj hbody) hne

theorem build_frame_checksum_witness :
    ∃ F, build_frame [48] [49, 49, 49, 49] [1] [0, 2] = .ok F ∧
      F = frame_core [48] [49, 49, 49, 49] [1] [0, 2]
            ++ u16_le (sum16 ((frame_core [48] [49, 49, 49, 49] [1] [0, 2]).drop 2)) ∧
      validate F = .ok () ∧
      ∀ j c, j < ([0, 2] : List Nat).length → c < 256 → c ≠ ([0, 2] : List Nat).getD j 0 →
        validate (F.set (21 + ([49, 49, 49, 49] : List Nat).length
            + ([1] : List Nat).length + j) c)
          = .error (.runtimeError "Checksum mismatch") :=
  build_frame_checksum [48] [49, 49, 49, 49] [1] [0, 2] (by decide)
    (by decide)

/-! ### Batch-read lemmas -/

theorem read_registers_go_absent (kv : RMap) (regs : List Register) :
    ∀ (out : SMap) (k : String),
      (∀ r ∈ regs, key_for r = k → kv (r.parameter.getD 1 0) = none) →
      out k = none → read_registers_go kv regs out k = none := by
  induction regs with
  | nil => intro out k _ hout; exact hout
  | cons r rest ih =>
      intro out k hall hout
      simp only [read_registers_go]
      cases hkv : kv (r.parameter.getD 1 0) with
      | none => exact ih out k (fun r' hr' => hall r' (List.mem_cons_of_mem r hr')) hout
      | some raw =>
          refine ih _ k (fun r' hr' => hall r' (List.mem_cons_of_mem r hr')) ?_
          unfold dictSetS
          have hne : key_for r ≠ k := fun hk => by
            rw [hall r (List.mem_cons_self r rest) hk] at hkv
            cases hkv
          rw [if_neg (fun hk => hne hk.symm)]
          exact hout

theorem read_registers_go_mono (kv : RMap) (regs : List Register) :
    ∀ (out : SMap) (k : String), (out k).isSome →
      (read_registers_go kv regs out k).isSome := by
  induction regs with
  | nil => intro out k h; exact h
  | cons r rest ih =>
      intro out k h
      simp only [read_registers_go]
      cases hkv : kv (r.parameter.getD 1 0) with
      | none => exact ih out k h
      | some raw =>
          refine ih _ k ?_
          unfold dictSetS
          split_ifs with hk
          · simp
          · exact h

theorem read_registers_go_present (kv : RMap) (regs : List Register) :
    ∀ (out : SMap) (r : Register), r ∈ regs →
      (kv (r.parameter.getD 1 0)).isSome →
      (read_registers_go kv regs out (key_for r)).isSome := by
  induction regs with
  | nil => intro out r hr; cases hr
  | cons r0 rest ih =>
      intro out r hr hkv
      simp only [read_registers_go]
      rcases List.mem_cons.1 hr with hEq | hmem
      · subst hEq
        cases hkvr : kv (r.parameter.getD 1 0) with
        | none => rw [hkvr] at hkv; cases hkv
        | some raw =>
            apply read_registers_go_mono
            unfold dictSetS
            rw [if_pos rfl]
            simp
      · cases hkvr : kv (r0.parameter.getD 1 0) with
        | none => exact ih out r hmem hkv
        | some raw => exact ih _ r hmem hkv

/-- C8: a single read whose key is absent from the decoded reply fails with
the register-not-found error (and succeeds, formatting the raw bytes, when
present); the batch read never fails, silently omits descriptors whose key
is absent, inserts every present descriptor under its `_key_for` key; and
that key is the descriptor's (nonempty) name, falling back to the lowercase
hex of the 2-byte parameter address when no name is set. -/
theorem read_lookup_behavior :
    (∀ (reg : Register) (kv : RMap), kv (reg.parameter.getD 1 0) = none →
      read_register_post reg kv = .error (.ventsError "register not found in reply")) ∧
    (∀ (reg : Register) (kv : RMap) (raw : List Nat),
      kv (reg.parameter.getD 1 0) = some raw →
      read_register_post reg kv = .ok (format_value reg raw)) ∧
    (∀ (regs : List Register) (kv : RMap) (k : String),
      (∀ r ∈ regs, key_for r = k → kv (r.parameter.getD 1 0) = none) →
      read_registers_post regs kv k = none) ∧
    (∀ (regs : List Register) (kv : RMap) (r : Register), r ∈ regs →
      (kv (r.parameter.getD 1 0)).isSome →
      (read_registers_post regs kv (key_for r)).isSome) ∧
    (∀ (reg : Register) (n : String), reg.name = some n → n ≠ "" → key_for reg = n) ∧
    (∀ reg : Register, reg.name = none → key_for reg = bytesHex reg.parameter) := by
  refine ⟨?_, ?_, ?_, ?_, ?_, ?_⟩
  · intro reg kv h
    unfold read_register_post
    rw [h]
  · intro reg kv raw h
    unfold read_register_post
    rw [h]
  · intro regs kv k hall
    exact read_registers_go_absent kv regs emptyS k hall rfl
  · intro regs kv r hr hkv
    exact read_registers_go_present kv regs emptyS r hr hkv
  · intro reg n hn hne
    simp [key_for, hn, hne]
  · intro reg hn
    simp [key_for, hn]

/-- Decoded reply used by the C8 witness: only key 2 (SPEED) answered. -/
def kvC8 : RMap := fun k => if k = 2 then some [3] else none

theorem read_lookup_behavior_witness :
    read_register_post TARGET_TEMP kvC8
        = .error (.ventsError "register not found in reply") ∧
      read_register_post SPEED kvC8 = .ok (format_value SPEED [3]) ∧
      read_registers_post [TARGET_TEMP, SPEED] kvC8 "target_temp" = none ∧
      (read_registers_post [TARGET_TEMP, SPEED] kvC8 (key_for SPEED)).isSome ∧
      key_for SPEED = "speed" ∧
      key_for ({ parameter := [0, 2], count := 1, fmt := .int } : Register)
        = bytesHex [0, 2] :=
  ⟨read_lookup_behavior.1 TARGET_TEMP kvC8 (by decide),
    read_lookup_behavior.2.1 SPEED kvC8 [3] (by decide),
    read_lookup_behavior.2.2.1 [TARGET_TEMP, SPEED] kvC8 "target_temp" (by decide),
    read_lookup_behavior.2.2.2.1 [TARGET_TEMP, SPEED] kvC8 SPEED
      (by simp) (by decide),
    read_lookup_behavior.2.2.2.2.1 SPEED "speed" rfl (by decide),
    read_lookup_behavior.2.2.2.2.2 _ rfl⟩

/-- C7 (counterexample): `POWER_ON` is a boolean register with declared
bounds `min=0, max=1`, yet writing the out-of-range value `5` raises no
error before network I/O: the value is coerced by truthiness to the byte
`0x01`, the bounds check is skipped (it runs only for `fmt in (int, float)`),
and control reaches the UDP send with body `[0x01, 0x01]`. -/
theorem write_bounds_counterexample :
    write_register_pre POWER_ON (.intV 5) = .ok [1, 1] := by decide

/-- C7 (amended): a read-only descriptor fails with the read-only error
before any network I/O; for `int`/`float` formats (only — boolean registers
are not bounds-checked) with declared bounds and a value that coerces
successfully, a value below `min` (resp. above `max`) fails with the
below-min (resp. above-max) error before any network I/O. -/
theorem write_bounds_amended :
    (∀ (reg : Register) (v : PyVal), reg.read_only = true →
      write_register_pre reg v
        = .error (.ventsError ("register '" ++ reg.name.getD (bytesHex reg.parameter)
            ++ "' is read-only"))) ∧
    (∀ (reg : Register) (v : PyVal) (m : ℤ) (q : ℚ) (raw : List Nat),
      reg.read_only = false → (reg.fmt = Fmt.int ∨ reg.fmt = Fmt.float) →
      reg.min = some m → pyNum v = some q → q < (m : ℚ) →
      coerce_to_bytes reg v = .ok raw →
      write_register_pre reg v = .error (.ventsError "value < min")) ∧
    (∀ (reg : Register) (v : PyVal) (m : ℤ) (q : ℚ) (raw : List Nat),
      reg.read_only = false → (reg.fmt = Fmt.int ∨ reg.fmt = Fmt.float) →
      reg.max = some m → pyNum v = some q → (m : ℚ) < q →
      (∀ m', reg.min = some m' → ¬ q < (m' : ℚ)) →
      coerce_to_bytes reg v = .ok raw →
      write_register_pre reg v = .error (.ventsError "value > max")) := by
  refine ⟨?_, ?_, ?_⟩
  · intro reg v hro
    unfold write_register_pre
    rw [hro, if_pos rfl]
  · intro reg v m q raw hro hfmt hmin hq hlt hco
    unfold write_register_pre
    rw [hro, if_neg (by simp), hco]
    have hbc : bounds_check reg v = .error (.ventsError "value < min") := by
      unfold bounds_check bound_below
      rw [if_pos hfmt, hmin]
      simp [hq, hlt]
    rw [hbc]
  · intro reg v m q raw hro hfmt hmax hq hgt hminok hco
    unfold write_register_pre
    rw [hro, if_neg (by simp), hco]
    have hbb : bound_below reg v = .ok () := by
      unfold bound_below
      cases hm : reg.min with
      | none => rfl
      | some m' =>
          simp [hq, hminok m' hm]
    have hbc : bounds_check reg v = .error (.ventsError "value > max") := by
      unfold bounds_check
      rw [if_pos hfmt, hbb]
      simp [bound_above, hmax, hq, hgt]
    rw [hbc]

theorem write_bounds_amended_witness :
    write_register_pre CURRENT_HUMIDITY (.floatV 30)
        = .error (.ventsError ("register '"
            ++ CURRENT_HUMIDITY.name.getD (bytesHex CURRENT_HUMIDITY.parameter)
            ++ "' is read-only")) ∧
      write_register_pre TARGET_TEMP (.intV 1) = .error (.ventsError "value < min") ∧
      write_register_pre TARGET_TEMP (.intV 31) = .error (.ventsError "value > max") :=
  ⟨write_bounds_amended.1 CURRENT_HUMIDITY (.floatV 30) rfl,
    write_bounds_amended.2.1 TARGET_TEMP (.intV 1) 15 1 [1] rfl (Or.inl rfl) rfl rfl
      (by norm_num) (by decide),
    write_bounds_amended.2.2 TARGET_TEMP (.intV 31) 30 31 [31] rfl (Or.inl rfl) rfl rfl
      (by norm_num)
      (fun m' hm' => by
        injection hm' with h
        subst h
        norm_num)
      (by decide)⟩

/-- Integer register carrying a scale, used for claim C3. -/
def INTSCALEC3 : Register :=
  { parameter := [0, 99], count := 1, fmt := .int, scale := some (1 / 10) }

/-- C3 (counterexample): for an integer descriptor with `scale = 0.1`,
encoding 5 stores the wire byte 5 (not `round(5 / 0.1) = 50` as the claim's
scale equation demands), and decoding it back yields
`int(5 * 0.1) = 0`, which is not within one scale unit of 5. -/
theorem codec_roundtrip_counterexample :
    coerce_to_bytes INTSCALEC3 (.intV 5) = .ok [5] ∧
      pyround ((5 : ℚ) / (1 / 10)) = 50 ∧
      format_value INTSCALEC3 [5] = .intV 0 ∧
      ¬ (|(0 : ℚ) - 5| ≤ 1 / 10) := by
  refine ⟨by decide, ?_, ?_, ?_⟩
  · have h50 : (5 : ℚ) / (1 / 10) = ((50 : ℤ) : ℚ) := by norm_num
    rw [h50, pyround_intCast]
  · have h1 : format_value INTSCALEC3 [5]
        = .intV (pytrunc (((5 : ℕ) : ℚ) * (1 / 10))) := rfl
    rw [h1]
    have h2 : (((5 : ℕ) : ℚ)) * (1 / 10) = 1 / 2 := by
      push_cast
      norm_num
    rw [h2]
    unfold pytrunc
    rw [if_pos (by norm_num)]
    have h3 : ⌊(1 / 2 : ℚ)⌋ = 0 :=
      Int.floor_eq_zero_iff.2 (Set.mem_Ico.2 ⟨by norm_num, by norm_num⟩)
    rw [h3]
  · intro hc
    rw [show (0 : ℚ) - 5 = -5 by ring, abs_neg, abs_of_nonneg (by norm_num : (0:ℚ) ≤ 5)]
      at hc
    norm_num at hc

/-- C3 (amended): the round-trip holds as claimed for boolean descriptors,
for integer descriptors *without* scale, and for floating-point descriptors
— where `encode` stores `round(value / scale)` (banker's rounding, `scale`
defaulting to 1.0) and `decode` returns the wire integer times the scale
rounded to one decimal, within `max(scale, 0.1)` of the value.  For integer
descriptors *with* a scale the claim's scale equation fails: encode ignores
the scale entirely while decode multiplies by it
(see the counterexample). -/
theorem codec_roundtrip_amended :
    (∀ (reg : Register) (b : Bool), reg.fmt = .bool → reg.count = 1 →
      coerce_to_bytes reg (.boolV b) = .ok [if b then 1 else 0] ∧
        format_value reg [if b then 1 else 0] = .boolV b) ∧
    (∀ (reg : Register) (n : ℕ), reg.fmt = .int → reg.scale = none →
      n < 256 ^ reg.count →
      ∃ w, coerce_to_bytes reg (.intV n) = .ok w ∧
        format_value reg w = .intV n) ∧
    (∀ (reg : Register) (s v : ℚ), reg.fmt = .float → reg.scale = some s →
      0 < s → 0 ≤ pyround (v / s) → pyround (v / s) < (256 : ℤ) ^ reg.count →
      ∃ w, coerce_to_bytes reg (.floatV v) = .ok w ∧
        format_value reg w = .floatV (pyround1 ((pyround (v / s) : ℚ) * s)) ∧
        |pyround1 ((pyround (v / s) : ℚ) * s) - v| ≤ max s (1 / 10)) ∧
    (∀ (reg : Register) (v : ℚ), reg.fmt = .float → reg.scale = none →
      0 ≤ pyround v → pyround v < (256 : ℤ) ^ reg.count →
      ∃ w, coerce_to_bytes reg (.floatV v) = .ok w ∧
        format_value reg w = .floatV ((pyround v : ℚ)) ∧
        |(pyround v : ℚ) - v| ≤ 1 / 2) := by
  refine ⟨?_, ?_, ?_, ?_⟩
  · intro reg b hfmt hcnt
    constructor
    · simp only [coerce_to_bytes, hfmt, hcnt]
      simp [pybool]
    · simp only [format_value, hfmt]
      cases b <;> simp [fromBytes_single]
  · intro reg n hfmt hscale hlt
    have hcast : ((n : ℤ)) < (256 : ℤ) ^ reg.count := by exact_mod_cast hlt
    obtain ⟨w, hw, hfb, hlen⟩ :=
      toBytes_ok reg.count (byteorder reg) (n : ℤ) (Int.natCast_nonneg n) hcast
    refine ⟨w, ?_, ?_⟩
    · simp only [coerce_to_bytes, hfmt]
      exact hw
    · simp only [format_value, hfmt, hscale]
      rw [hfb]
      congr 1
  · intro reg s v hfmt hscale hs hk0 hklt
    obtain ⟨w, hw, hfb, hlen⟩ :=
      toBytes_ok reg.count (byteorder reg) (pyround (v / s)) hk0 hklt
    have hcast : (((pyround (v / s)).toNat : ℕ) : ℚ) = ((pyround (v / s) : ℤ) : ℚ) := by
      exact_mod_cast Int.toNat_of_nonneg hk0
    refine ⟨w, ?_, ?_, ?_⟩
    · simp only [coerce_to_bytes, hfmt, hscale, pyfloat]
      simpa using hw
    · simp only [format_value, hfmt, hscale]
      rw [hfb, hcast]
    · have hsne : s ≠ 0 := ne_of_gt hs
      have h1 : |(pyround (v / s) : ℚ) - v / s| ≤ 1 / 2 := pyround_abs (v / s)
      have h2 : |(pyround (v / s) : ℚ) * s - v| ≤ s / 2 := by
        have hfac : ((pyround (v / s) : ℚ) - v / s) * s = (pyround (v / s) : ℚ) * s - v := by
          field_simp
        rw [← hfac, abs_mul, abs_of_pos hs]
        calc |(pyround (v / s) : ℚ) - v / s| * s
            ≤ (1 / 2) * s := mul_le_mul_of_nonneg_right h1 (le_of_lt hs)
          _ = s / 2 := by ring
      have h3 : |pyround1 ((pyround (v / s) : ℚ) * s) - (pyround (v / s) : ℚ) * s| ≤ 1 / 20 :=
        pyround1_abs _
      have h4 : |pyround1 ((pyround (v / s) : ℚ) * s) - v| ≤ 1 / 20 + s / 2 := by
        calc |pyround1 ((pyround (v / s) : ℚ) * s) - v|
            ≤ |pyround1 ((pyround (v / s) : ℚ) * s) - (pyround (v / s) : ℚ) * s|
              + |(pyround (v / s) : ℚ) * s - v| := abs_sub_le _ _ _
          _ ≤ 1 / 20 + s / 2 := add_le_add h3 h2
      rcases le_or_lt (1 / 10 : ℚ) s with hcase | hcase
      · exact le_trans h4 (le_trans (by linarith) (le_max_left s (1 / 10)))
      · exact le_trans h4 (le_trans (by linarith) (le_max_right s (1 / 10)))
  · intro reg v hfmt hscale hk0 hklt
    obtain ⟨w, hw, hfb, hlen⟩ :=
      toBytes_ok reg.count (byteorder reg) (pyround v) hk0 hklt
    have hcast : (((pyround v).toNat : ℕ) : ℚ) = ((pyround v : ℤ) : ℚ) := by
      exact_mod_cast Int.toNat_of_nonneg hk0
    refine ⟨w, ?_, ?_, pyround_abs v⟩
    · simp only [coerce_to_bytes, hfmt, hscale, pyfloat]
      simpa [div_one] using hw
    · simp only [format_value, hfmt, hscale]
      rw [hfb, hcast, pyround1_intCast]

theorem codec_roundtrip_amended_witness :
    (coerce_to_bytes POWER_ON (.boolV true) = .ok [1] ∧
      format_value POWER_ON [1] = .boolV true) ∧
    (∃ w, coerce_to_bytes SPEED (.intV (3 : ℕ)) = .ok w ∧
      format_value SPEED w = .intV (3 : ℕ)) ∧
    (∃ w, coerce_to_bytes EXHAUST_IN_TEMPERATURE (.floatV 22) = .ok w ∧
      format_value EXHAUST_IN_TEMPERATURE w
        = .floatV (pyround1 ((pyround ((22 : ℚ) / (1 / 10)) : ℚ) * (1 / 10))) ∧
      |pyround1 ((pyround ((22 : ℚ) / (1 / 10)) : ℚ) * (1 / 10)) - 22|
        ≤ max (1 / 10 : ℚ) (1 / 10)) ∧
    (∃ w, coerce_to_bytes CURRENT_HUMIDITY (.floatV 42) = .ok w ∧
      format_value CURRENT_HUMIDITY w = .floatV ((pyround (42 : ℚ) : ℚ)) ∧
      |(pyround (42 : ℚ) : ℚ) - 42| ≤ 1 / 2) := by
  have hp220 : pyround ((22 : ℚ) / (1 / 10)) = 220 := by
    rw [show (22 : ℚ) / (1 / 10) = ((220 : ℤ) : ℚ) by norm_num, pyround_intCast]
  have hp42 : pyround (42 : ℚ) = 42 := by
    rw [show (42 : ℚ) = ((42 : ℤ) : ℚ) by norm_num, pyround_intCast]
  exact ⟨codec_roundtrip_amended.1 POWER_ON true rfl rfl,
    codec_roundtrip_amended.2.1 SPEED 3 rfl rfl (by norm_num [SPEED]),
    codec_roundtrip_amended.2.2.1 EXHAUST_IN_TEMPERATURE (1 / 10) 22 rfl rfl
      (by norm_num) (by rw [hp220]; norm_num)
      (by rw [hp220]; norm_num [EXHAUST_IN_TEMPERATURE]),
    codec_roundtrip_amended.2.2.2 CURRENT_HUMIDITY 42 rfl rfl
      (by rw [hp42]; norm_num) (by rw [hp42]; norm_num [CURRENT_HUMIDITY])⟩

end VentsAHU


